import Mathlib

/-!
Shallow embedding of `src/containerd/processor.rs` from the rgb-node
repository: the ingest processor (`Runtime::process_consignment`) and the
compose processor (`Runtime::compose_consignment` with its `Collector`
DAG-traversal engine), together with the slice of the external `rgb`,
`commit_verify` and storage crates that those two functions consume.

Identifiers (ContractId, SchemaId, NodeId, BundleId, Txid) are opaque
content hashes in the source; they are modelled as `Nat` with byte
equality becoming `Nat` equality.  The key-value stash store is modelled
as association lists so that everything is computable and decidable.
-/

/-- A transaction outpoint: `bitcoin::OutPoint` is a txid plus output index. -/
structure OutPoint where
  txid : Nat
  vout : Nat
deriving DecidableEq, Repr

/-- A revealed seal (`seal::Revealed`): an optional explicit txid (defaulting to
the bundle witness txid when absent, as in `seal.txid.unwrap_or(witness_txid)`)
plus an output index. -/
structure RevealedSeal where
  txid : Option Nat
  vout : Nat
deriving DecidableEq, Repr

/-- Modelled from the spec: `SealEndpoint::from(seal)` converts a revealed seal
into the endpoint form placed in consignments; the conversion is injective and
otherwise opaque, so the endpoint is modelled as carrying the seal itself. -/
structure SealEndpoint where
  ep : RevealedSeal
deriving DecidableEq, Repr

/-- The address of one produced assignment of a node: `NodeOutpoint::new(node_id, output_no)`. -/
structure NodeOutpoint where
  node_id : Nat
  vout : Nat
deriving DecidableEq, Repr

/-- A state transition (`rgb::Transition`): content-addressed id, a transition
type, the owned-rights assignments (per output index, the list of revealed
seals produced by `assignments.filter_revealed_seals()`), and the node ids of
the parent outputs it spends (`transition.parent_outputs()`, of which only
`out.node_id` is consumed by the processor). -/
structure Transition where
  node_id : Nat
  transition_type : Nat
  owned_rights : List (List RevealedSeal)
  parent_outputs : List Nat
deriving DecidableEq, Repr

/-- A state extension (`rgb::Extension`): only its node id and content identity
matter to the processor. -/
structure Extension where
  node_id : Nat
deriving DecidableEq, Repr

/-- A transition bundle (`rgb::TransitionBundle`): the set of transitions
anchored by one witness transaction, each either revealed (full content plus
its input set) or concealed (node id plus input set only).  `bId` models
`bundle.bundle_id()`, the content commitment, which is invariant under
concealment and revelation. -/
structure TransitionBundle where
  bId : Nat
  concealed : List (Nat × List Nat)
  revealed : List (Transition × List Nat)
deriving DecidableEq, Repr

/-- Modelled from the spec: an anchor (`Anchor<lnpbp4::MerkleBlock>` or
`Anchor<lnpbp4::MerkleProof>`) binds a witness transaction to bundle ids
across possibly many contracts; `leaves` is the set of
(contract id, bundle id) commitments the Merkle structure covers. -/
structure Anchor where
  txid : Nat
  leaves : List (Nat × Nat)
deriving DecidableEq, Repr

/-- A schema (`rgb::Schema`): its own content id and the id of the root schema
it extends (`zero!()`, modelled as `0`, when there is none). -/
structure Schema where
  schema_id : Nat
  root_id : Nat
deriving DecidableEq, Repr

/-- A genesis (`rgb::Genesis`): the contract id it induces and the schema id it
carries (`genesis.schema_id()`). -/
structure Genesis where
  contract_id : Nat
  schema_id : Nat
deriving DecidableEq, Repr

/-- Modelled from the spec: `rgb::ContractState`, the folded projection of a
contract.  `add_transition` and `add_extension` fold one node into the
snapshot with idempotent union semantics (spec section 3 and the idempotence
property of section 8). -/
structure ContractState where
  contract_id : Nat
  genesis_id : Nat
  transitions : List (Nat × Nat)
  extensions : List Nat
deriving DecidableEq, Repr

/-- Validity classification of a validation status:
`Validity` in `{Valid, UnresolvedTransactions, Invalid(..)}`. -/
inductive Validity where
  | Valid
  | UnresolvedTransactions
  | Invalid
deriving DecidableEq, Repr

/-- A validation status (`validation::Status`): its `validity()` classification
plus the diagnostic payload the caller receives, modelled opaquely as a `Nat`
so that distinct statuses with the same classification stay distinct. -/
structure ValidationStatus where
  validity : Validity
  detail : Nat
deriving DecidableEq, Repr

/-- The consignment (`InmemConsignment`): schema, optional root schema, genesis,
node-outpoint tips, disclosure endpoints, anchored bundles and state
extensions.  `contract_id()` is derived from the genesis. -/
structure InmemConsignment where
  schema : Schema
  root_schema : Option Schema
  genesis : Genesis
  tips : List NodeOutpoint
  endpoints : List (Nat × SealEndpoint)
  anchored_bundles : List (Anchor × TransitionBundle)
  state_extensions : List Extension
deriving DecidableEq, Repr

/-- The consignment's contract id, derived from its genesis. -/
def InmemConsignment.contract_id (c : InmemConsignment) : Nat :=
  c.genesis.contract_id

/-- The outpoint selection predicate of `rgb_rpc::OutpointSelection`: select
all outpoints, or exactly a given set. -/
inductive OutpointSelection where
  | All
  | Outpoints (outs : List OutPoint)
deriving DecidableEq, Repr

/-- Modelled from the spec: `OutpointSelection::includes(outpoint)` is the
membership test of the selection. -/
def OutpointSelection.includes : OutpointSelection → OutPoint → Bool
  | .All, _ => true
  | .Outpoints outs, o => outs.contains o

/-- The stash-consistency error taxonomy of `StashError` in
`src/containerd/processor.rs`. -/
inductive StashError where
  | GenesisAbsent
  | SchemaAbsent (id : Nat)
  | TransitionAbsent (id : Nat)
  | TransitionTxidAbsent (id : Nat)
  | AnchorAbsent (txid : Nat)
  | BundleAbsent (txid : Nat)
  | UnrelatedAnchor
  | BundleReveal (id : Nat)
  | OutsizedBundle
deriving DecidableEq, Repr

/-- Association-list update used to model point `store` (overwrite) on a
stash table: replace the binding for `k` or append a fresh one. -/
def AListPut : List (Nat × α) → Nat → α → List (Nat × α)
  | [], k, v => [(k, v)]
  | (k', v') :: rest, k, v =>
      if k' = k then (k, v) :: rest else (k', v') :: AListPut rest k v

/-- Association-list lookup used to model `retrieve` on a stash table. -/
def AListGet : List (Nat × α) → Nat → Option α
  | [], _ => none
  | (k', v') :: rest, k => if k' = k then some v' else AListGet rest k

/-- Association-list merge-store used to model `store_merge`: combine the new
value with any prior value for the key using the external merge operation. -/
def AListMerge (merge : α → α → α) (l : List (Nat × α)) (k : Nat) (v : α) :
    List (Nat × α) :=
  match AListGet l k with
  | some old => AListPut l k (merge old v)
  | none => AListPut l k v

/-- Insertion keeping list-as-set semantics: used to model
`insert_into_set` (idempotent set union) and the idempotent folds of
`ContractState`. -/
def insertUniq [DecidableEq α] (l : List α) (x : α) : List α :=
  if x ∈ l then l else l ++ [x]

/-- The stash store (`Db`): one association list per logical table, keyed as in
the persisted layout (schemata by schema id, genesis by contract id, anchors
and bundles by witness txid, transitions and transition-txid by node id, the
per-contract-per-type transition index by a combined key, contract state by
contract id). -/
structure Db where
  contracts : List (Nat × ContractState)
  schemata : List (Nat × Schema)
  genesis : List (Nat × Genesis)
  anchors : List (Nat × Anchor)
  bundles : List (Nat × TransitionBundle)
  transitions : List (Nat × Transition)
  transition_txid : List (Nat × Nat)
  contract_transitions : List ((Nat × Nat) × List Nat)
  extensions : List (Nat × Extension)
deriving DecidableEq, Repr

/-- The combined index key `Db::index_two_pieces(contract_id, transition_type)`. -/
def Db.index_two_pieces (contract_id transition_type : Nat) : Nat × Nat :=
  (contract_id, transition_type)

/-- Lookup in the two-piece-keyed transition index. -/
def AListGet2 : List ((Nat × Nat) × α) → Nat × Nat → Option α
  | [], _ => none
  | (k', v') :: rest, k => if k' = k then some v' else AListGet2 rest k

/-- Update in the two-piece-keyed transition index. -/
def AListPut2 : List ((Nat × Nat) × α) → Nat × Nat → α → List ((Nat × Nat) × α)
  | [], k, v => [(k, v)]
  | (k', v') :: rest, k, v =>
      if k' = k then (k, v) :: rest else (k', v') :: AListPut2 rest k v

/-- The idempotent set-union insert `insert_into_set(CONTRACT_TRANSITIONS, index_id, node_id)`. -/
def Db.insert_into_set (db : Db) (key : Nat × Nat) (node_id : Nat) : Db :=
  let old := (AListGet2 db.contract_transitions key).getD []
  { db with contract_transitions :=
      AListPut2 db.contract_transitions key (insertUniq old node_id) }

/-- The external merge operations used by `store_merge` on each table; the spec
describes them as idempotent-union combines supplied by the encoding layer. -/
structure MergeOps where
  mGenesis : Genesis → Genesis → Genesis
  mAnchor : Anchor → Anchor → Anchor
  mTransition : Transition → Transition → Transition
  mExtension : Extension → Extension → Extension

/-- Initial contract state `ContractState::with(contract_id, genesis)` created
on first sight of a contract. -/
def ContractState.start (cid : Nat) (g : Genesis) : ContractState :=
  { contract_id := cid, genesis_id := g.contract_id, transitions := [], extensions := [] }

/-- Modelled from the spec: `state.add_transition(witness_txid, transition)`
folds one transition into the snapshot with idempotent union semantics. -/
def ContractState.add_transition (s : ContractState) (witness_txid : Nat)
    (t : Transition) : ContractState :=
  { s with transitions := insertUniq s.transitions (witness_txid, t.node_id) }

/-- Modelled from the spec: `state.add_extension(extension)` folds one
extension into the snapshot with idempotent union semantics. -/
def ContractState.add_extension (s : ContractState) (e : Extension) : ContractState :=
  { s with extensions := insertUniq s.extensions e.node_id }

/-- Modelled from the spec: `anchor.into_merkle_block(contract_id, bundle_id)`
restores the full Merkle block scoped to one (contract id, bundle id) leaf and
fails when that leaf is not present in the anchor. -/
def Anchor.into_merkle_block (a : Anchor) (cid bid : Nat) : Option Anchor :=
  if (cid, bid) ∈ a.leaves then some a else none

/-- Modelled from the spec: `anchor.to_merkle_proof(contract_id)` narrows the
full Merkle block to the single-contract proof, failing with
`lnpbp4::LeafNotKnown` (converted to `UnrelatedAnchor`) when the contract has
no leaf in the block. -/
def Anchor.to_merkle_proof (a : Anchor) (cid : Nat) : Except StashError Anchor :=
  if a.leaves.any (fun l => l.1 = cid) then
    Except.ok { a with leaves := a.leaves.filter (fun l => l.1 = cid) }
  else Except.error StashError.UnrelatedAnchor

/-- The bundle id `bundle.bundle_id()`, a content commitment invariant under
reveal and conceal. -/
def TransitionBundle.bundle_id (b : TransitionBundle) : Nat := b.bId

/-- Removal of one binding, modelling `BTreeMap::remove`. -/
def AListErase : List (Nat × α) → Nat → List (Nat × α)
  | [], _ => []
  | (k', v') :: rest, k => if k' = k then rest else (k', v') :: AListErase rest k

/-- Modelled from the spec: `bundle.reveal_transition(transition)` moves a
concealed entry to revealed form, is a no-op when the transition is already
revealed, and rejects a transition that is not part of the bundle at all
(`bundle::RevealError`). -/
def TransitionBundle.reveal_transition (b : TransitionBundle) (t : Transition) :
    Except StashError TransitionBundle :=
  match AListGet b.concealed t.node_id with
  | some inputs =>
      Except.ok { b with
        concealed := AListErase b.concealed t.node_id,
        revealed := b.revealed ++ [(t, inputs)] }
  | none =>
      if b.revealed.any (fun e => e.1.node_id = t.node_id) then Except.ok b
      else Except.error (StashError.BundleReveal t.node_id)

/-- Point store (overwrite) into the contract-state table. -/
def Db.store_contract (db : Db) (k : Nat) (v : ContractState) : Db :=
  { db with contracts := AListPut db.contracts k v }

/-- Point store (overwrite) into the schemata table. -/
def Db.store_schema (db : Db) (k : Nat) (v : Schema) : Db :=
  { db with schemata := AListPut db.schemata k v }

/-- Merge-store into the genesis table (`store_merge(GENESIS, contract_id, genesis)`). -/
def Db.store_merge_genesis (ops : MergeOps) (db : Db) (k : Nat) (v : Genesis) : Db :=
  { db with genesis := AListMerge ops.mGenesis db.genesis k v }

/-- Merge-store into the anchors table (`store_merge_h(ANCHORS, anchor.txid, anchor)`). -/
def Db.store_merge_anchor (ops : MergeOps) (db : Db) (k : Nat) (v : Anchor) : Db :=
  { db with anchors := AListMerge ops.mAnchor db.anchors k v }

/-- Merge-store into the transitions table (`store_merge(TRANSITIONS, node_id, transition)`). -/
def Db.store_merge_transition (ops : MergeOps) (db : Db) (k : Nat) (v : Transition) : Db :=
  { db with transitions := AListMerge ops.mTransition db.transitions k v }

/-- Point store (overwrite) of the transition-to-witness-txid mapping. -/
def Db.store_transition_txid (db : Db) (k : Nat) (v : Nat) : Db :=
  { db with transition_txid := AListPut db.transition_txid k v }

/-- Point store (overwrite) of the full bundle contents keyed by witness txid
(`store_h(BUNDLES, witness_txid, &data)`); the stored data decodes back as an
all-concealed bundle. -/
def Db.store_bundle (db : Db) (k : Nat) (v : TransitionBundle) : Db :=
  { db with bundles := AListPut db.bundles k v }

/-- Merge-store into the extensions table (`store_merge(EXTENSIONS, node_id, extension)`). -/
def Db.store_merge_extension (ops : MergeOps) (db : Db) (k : Nat) (v : Extension) : Db :=
  { db with extensions := AListMerge ops.mExtension db.extensions k v }

/-- The inner loop of `process_consignment` over `bundle.into_revealed_iter()`:
folds each revealed transition into the contract state, appends it to the
bundle data being rebuilt, and performs the three per-transition stores. -/
def ingestRevealed (ops : MergeOps) (cid witness_txid : Nat) :
    Db → ContractState → List (Nat × List Nat) → List (Transition × List Nat) →
    Db × ContractState × List (Nat × List Nat)
  | db, state, data, [] => (db, state, data)
  | db, state, data, (transition, inputs) :: rest =>
      let node_id := transition.node_id
      let state := state.add_transition witness_txid transition
      let data := data ++ [(node_id, inputs)]
      let db := db.store_merge_transition ops node_id transition
      let db := db.store_transition_txid node_id witness_txid
      let db := db.insert_into_set (Db.index_two_pieces cid transition.transition_type) node_id
      ingestRevealed ops cid witness_txid db state data rest

/-- Outcome of the anchored-bundle loop: either the updated store and state, or
an abnormal abort (the `.expect("broken anchor data")` panic) leaving the
store as written so far. -/
inductive BundlesOut where
  | ok (db : Db) (state : ContractState)
  | panic (db : Db)
deriving DecidableEq, Repr

/-- The loop of `process_consignment` over `consignment.anchored_bundles`:
converts each anchor to its full-block form (panicking like
`.expect("broken anchor data")` when the bundle is not covered), merge-stores
the anchor, processes the revealed transitions, and stores the rebuilt bundle
data keyed by witness txid. -/
def ingestBundles (ops : MergeOps) (cid : Nat) :
    Db → ContractState → List (Anchor × TransitionBundle) → BundlesOut
  | db, state, [] => BundlesOut.ok db state
  | db, state, (anchor, bundle) :: rest =>
      let bundle_id := bundle.bundle_id
      let witness_txid := anchor.txid
      match anchor.into_merkle_block cid bundle_id with
      | none => BundlesOut.panic db
      | some anchorBlock =>
          let db := db.store_merge_anchor ops anchorBlock.txid anchorBlock
          let r := ingestRevealed ops cid witness_txid db state bundle.concealed bundle.revealed
          let db := r.1
          let state := r.2.1
          let data := r.2.2
          let db := db.store_bundle witness_txid
            { bId := bundle.bId, concealed := data, revealed := [] }
          ingestBundles ops cid db state rest

/-- The loop of `process_consignment` over `consignment.state_extensions`. -/
def ingestExtensions (ops : MergeOps) :
    Db → ContractState → List Extension → Db × ContractState
  | db, state, [] => (db, state)
  | db, state, e :: rest =>
      let state := state.add_extension e
      let db := db.store_merge_extension ops e.node_id e
      ingestExtensions ops db state rest

/-- The writes of `process_consignment` preceding the anchored-bundle loop:
schema, optional root schema, and merge-stored genesis. -/
def ingestPreamble (ops : MergeOps) (db : Db) (c : InmemConsignment) : Db :=
  let db := db.store_schema c.schema.schema_id c.schema
  let db := match c.root_schema with
    | some rs => db.store_schema rs.schema_id rs
    | none => db
  db.store_merge_genesis ops c.contract_id c.genesis

/-- Result of one ingest call: the validity verdict together with the store
left behind, a daemon error, or an abnormal abort (panic) leaving the store
as written up to the point of failure. -/
inductive IngestResult where
  | ok (status : ValidationStatus) (db : Db)
  | err (e : StashError) (db : Db)
  | panic (db : Db)
deriving DecidableEq, Repr

/-- The ingest processor `Runtime::process_consignment(consignment, force)`.
The external `Validator::validate(&consignment, &self.electrum)` call is a
deterministic function of the consignment, passed here as the `status`
argument. -/
def process_consignment (ops : MergeOps) (db : Db) (consignment : InmemConsignment)
    (status : ValidationStatus) (force : Bool) : IngestResult :=
  let contract_id := consignment.contract_id
  let state := (AListGet db.contracts contract_id).getD
    (ContractState.start contract_id consignment.genesis)
  if status.validity = Validity.Valid ∨
      (status.validity = Validity.UnresolvedTransactions ∧ force = true) then
    let db := ingestPreamble ops db consignment
    match ingestBundles ops contract_id db state consignment.anchored_bundles with
    | BundlesOut.panic db => IngestResult.panic db
    | BundlesOut.ok db state =>
        let r := ingestExtensions ops db state consignment.state_extensions
        IngestResult.ok status (r.1.store_contract contract_id r.2)
  else
    IngestResult.ok status db

/-- The `Collector` state: the per-witness-txid cache of (anchor proof, bundle)
pairs built incrementally, the disclosure endpoints, and the queue of parent
node ids still to visit. -/
structure Collector where
  contract_id : Nat
  anchored_bundles : List (Nat × Anchor × TransitionBundle)
  endpoints : List (Nat × SealEndpoint)
  endpoint_inputs : List Nat
deriving DecidableEq, Repr

/-- `Collector::new(contract_id)`. -/
def Collector.new (contract_id : Nat) : Collector :=
  { contract_id := contract_id, anchored_bundles := [], endpoints := [],
    endpoint_inputs := [] }

/-- Lookup of the transition-id set indexed under `(contract_id, transition_type)`
(`Db::transitions_by_type`); an absent index entry is the empty set. -/
def Db.transitions_by_type (db : Db) (cid ttype : Nat) : List Nat :=
  (AListGet2 db.contract_transitions (Db.index_two_pieces cid ttype)).getD []

/-- The flattened seal loop of `Collector::process` for one transition: for
each produced output (by index) and each of its revealed seals, keep the
(output index, seal) pair when the seal's concrete outpoint — txid defaulting
to the witness txid — matches the outpoint selection. -/
def matchingSeals (witness_txid : Nat) (t : Transition) (sel : OutpointSelection) :
    List (Nat × RevealedSeal) :=
  t.owned_rights.enum.flatMap (fun p =>
    (p.2.filter (fun s =>
      sel.includes (OutPoint.mk (s.txid.getD witness_txid) s.vout))).map
      (fun s => (p.1, s)))

/-- Resolution of the (anchor proof, bundle) pair for a witness txid in
`Collector::process`: reuse the cache entry, or load the full anchor and
bundle from the store, narrow the anchor to a single-contract proof, and
cache both under the witness txid. -/
def Collector.resolveBundle (db : Db) (col : Collector) (witness_txid : Nat) :
    Except StashError (Collector × Anchor × TransitionBundle) :=
  match AListGet col.anchored_bundles witness_txid with
  | some ab => Except.ok (col, ab.1, ab.2)
  | none =>
    match AListGet db.anchors witness_txid with
    | none => Except.error (StashError.AnchorAbsent witness_txid)
    | some anchor =>
      match AListGet db.bundles witness_txid with
      | none => Except.error (StashError.BundleAbsent witness_txid)
      | some bundle =>
        match anchor.to_merkle_proof col.contract_id with
        | Except.error e => Except.error e
        | Except.ok anchorProof =>
          let cache := AListPut col.anchored_bundles witness_txid (anchorProof, bundle)
          Except.ok ({ col with anchored_bundles := cache }, anchorProof, bundle)

/-- The body of `Collector::process` for a single transition id: load the
transition and its witness txid, resolve the (anchor proof, bundle) pair from
the cache or the store, record tips, endpoints and parent inputs for each
matching seal, and reveal the transition inside its cached bundle. -/
def Collector.processOne (db : Db) (sel : OutpointSelection) (col : Collector)
    (transition_id : Nat) : Except StashError (Collector × List NodeOutpoint) :=
  match AListGet db.transitions transition_id with
  | none => Except.error (StashError.TransitionAbsent transition_id)
  | some transition =>
    match AListGet db.transition_txid transition_id with
    | none => Except.error (StashError.TransitionTxidAbsent transition_id)
    | some witness_txid =>
      match Collector.resolveBundle db col witness_txid with
      | Except.error e => Except.error e
      | Except.ok (col, anchorProof, bundle) =>
        let bundle_id := bundle.bundle_id
        let ms := matchingSeals witness_txid transition sel
        let tipsAdd := ms.map (fun p => NodeOutpoint.mk transition_id p.1)
        let eps := col.endpoints ++ ms.map (fun p => (bundle_id, SealEndpoint.mk p.2))
        let inputs :=
          col.endpoint_inputs ++ ms.flatMap (fun _ => transition.parent_outputs)
        let col := { col with endpoints := eps, endpoint_inputs := inputs }
        match bundle.reveal_transition transition with
        | Except.error e => Except.error e
        | Except.ok bundle =>
          let cache := AListPut col.anchored_bundles witness_txid (anchorProof, bundle)
          Except.ok ({ col with anchored_bundles := cache }, tipsAdd)

/-- `Collector::process(db, node_ids, outpoint_selection)`: fold of
`processOne` over the input ids, accumulating the newly discovered tips in
order. -/
def Collector.process (db : Db) (sel : OutpointSelection) :
    Collector → List Nat → Except StashError (Collector × List NodeOutpoint)
  | col, [] => Except.ok (col, [])
  | col, id :: rest =>
      match Collector.processOne db sel col id with
      | Except.error e => Except.error e
      | Except.ok (col, tips₁) =>
          match Collector.process db sel col rest with
          | Except.error e => Except.error e
          | Except.ok (col, tips₂) => Except.ok (col, tips₁ ++ tips₂)

/-- `Collector::iterate(db)` with explicit fuel: each round takes the queued
parent ids, clears the queue, processes them under the unconditional
select-all policy, and stops when the queue stays empty.  `some` is the loop's
own exit; `none` reports fuel exhaustion (the Rust loop has no fuel — the
termination theorem shows enough fuel always exists). -/
def Collector.iterateN (db : Db) : Nat → Collector → Except StashError (Option Collector)
  | 0, _ => Except.ok none
  | n + 1, col =>
      let node_ids := col.endpoint_inputs
      let col := { col with endpoint_inputs := [] }
      match Collector.process db OutpointSelection.All col node_ids with
      | Except.error e => Except.error e
      | Except.ok (col, _) =>
          if col.endpoint_inputs.isEmpty then Except.ok (some col)
          else Collector.iterateN db n col

/-- The protocol's maximum anchored-bundle count of the bounded collection the
assembled consignment uses (`try_into` of the confined vector type). -/
def MAX_BUNDLES : Nat := 65535

/-- `Collector::consignment(schema, root_schema, genesis, tips)`: convert the
accumulated bundle map into the bounded collection, failing with the
oversized-bundle-set error when it exceeds the protocol maximum, and assemble
the consignment with an empty state-extension list. -/
def Collector.consignment (col : Collector) (schema : Schema)
    (root_schema : Option Schema) (genesis : Genesis) (tips : List NodeOutpoint) :
    Except StashError InmemConsignment :=
  if col.anchored_bundles.length > MAX_BUNDLES then
    Except.error StashError.OutsizedBundle
  else
    Except.ok
      { schema := schema
        root_schema := root_schema
        genesis := genesis
        tips := tips
        endpoints := col.endpoints
        anchored_bundles := col.anchored_bundles.map (fun e => (e.2.1, e.2.2))
        state_extensions := [] }

/-- The forward pass of `Runtime::compose_consignment`: for each requested
transition type, feed the indexed transition ids to `Collector::process` under
the caller's outpoint selection, accumulating the disclosure tips. -/
def composeForward (db : Db) (cid : Nat) (sel : OutpointSelection) :
    Collector → List Nat → Except StashError (Collector × List NodeOutpoint)
  | col, [] => Except.ok (col, [])
  | col, ttype :: rest =>
      match Collector.process db sel col (db.transitions_by_type cid ttype) with
      | Except.error e => Except.error e
      | Except.ok (col, tips₁) =>
          match composeForward db cid sel col rest with
          | Except.error e => Except.error e
          | Except.ok (col, tips₂) => Except.ok (col, tips₁ ++ tips₂)

/-- `Runtime::compose_consignment(contract_id, include, outpoint_selection)`:
load genesis, schema and optional root schema, run the forward passes over the
requested transition types, close the ancestry backward with `iterate`, and
assemble the consignment from the collector and the forward tips.  The fuel
only drives the embedded `iterate` loop; `ok none` is fuel exhaustion. -/
def compose_consignment (db : Db) (fuel : Nat) (contract_id : Nat)
    (includeSet : List Nat) (outpoint_selection : OutpointSelection) :
    Except StashError (Option InmemConsignment) :=
  match AListGet db.genesis contract_id with
  | none => Except.error StashError.GenesisAbsent
  | some genesis =>
    match AListGet db.schemata genesis.schema_id with
    | none => Except.error (StashError.SchemaAbsent genesis.schema_id)
    | some schema =>
      match (if schema.root_id ≠ 0 then
          match AListGet db.schemata schema.root_id with
          | none => Except.error (StashError.SchemaAbsent schema.root_id)
          | some s => Except.ok (some s)
        else (Except.ok none : Except StashError (Option Schema))) with
      | Except.error e => Except.error e
      | Except.ok root_schema =>
        match composeForward db contract_id outpoint_selection
            (Collector.new contract_id) includeSet with
        | Except.error e => Except.error e
        | Except.ok (col, tips) =>
          match Collector.iterateN db fuel col with
          | Except.error e => Except.error e
          | Except.ok none => Except.ok none
          | Except.ok (some col) =>
            match col.consignment schema root_schema genesis tips with
            | Except.error e => Except.error e
            | Except.ok c => Except.ok (some c)

/-- The endpoints contributed by one walked transition under a selection: for
each matching seal, the pair of the transition's stored bundle id and the
seal endpoint — the per-transition summary of the endpoint pushes in
`Collector::process`. -/
def nodeEndpoints (db : Db) (sel : OutpointSelection) (id : Nat) :
    List (Nat × SealEndpoint) :=
  match AListGet db.transitions id, AListGet db.transition_txid id with
  | some t, some wt =>
      match AListGet db.bundles wt with
      | some b => (matchingSeals wt t sel).map (fun p => (b.bId, SealEndpoint.mk p.2))
      | none => []
  | _, _ => []

/-- Stated from the spec's conservation property (for comparison with the
code): the disclosure endpoints a compose request is claimed to return —
exactly the outpoints that match the caller's selection and are produced by a
transition whose type is in the requested include set. -/
def specSelectedEndpoints (db : Db) (cid : Nat) (includeSet : List Nat)
    (sel : OutpointSelection) : List (Nat × SealEndpoint) :=
  includeSet.flatMap (fun ttype =>
    (db.transitions_by_type cid ttype).flatMap (fun id => nodeEndpoints db sel id))

/-- Consistency of the collector's lazy bundle cache with the store: every
cached bundle comes from the stored bundle of the same witness txid and keeps
its bundle id. -/
def CacheConsistent (db : Db) (col : Collector) : Prop :=
  ∀ e ∈ col.anchored_bundles, ∃ b₀, AListGet db.bundles e.1 = some b₀ ∧
    e.2.2.bId = b₀.bId

/-- The node ids revealed inside a bundle. -/
def revealedIds (b : TransitionBundle) : List Nat :=
  b.revealed.map (fun e => e.1.node_id)

/-- The node ids still concealed inside a bundle. -/
def concealedIds (b : TransitionBundle) : List Nat :=
  b.concealed.map Prod.fst

/-- Walk invariant of the collector's bundle cache after processing the ids in
`done`: every cached bundle descends from the stored all-concealed bundle of
its witness txid, its revealed entries are exactly the processed transitions
carried by that witness transaction, and the witness txid of every processed
transition is cached. -/
def BundleInv (db : Db) (done : List Nat) (col : Collector) : Prop :=
  (∀ x ∈ done, ∀ wt, AListGet db.transition_txid x = some wt →
    (AListGet col.anchored_bundles wt).isSome) ∧
  (∀ wt a b, AListGet col.anchored_bundles wt = some (a, b) →
    ∃ b₀, AListGet db.bundles wt = some b₀ ∧ b₀.revealed = [] ∧
      b.bId = b₀.bId ∧
      (revealedIds b).Nodup ∧
      (∀ x, x ∈ revealedIds b ↔ (x ∈ done ∧ AListGet db.transition_txid x = some wt)) ∧
      (∀ x, x ∈ concealedIds b → x ∉ revealedIds b) ∧
      (concealedIds b).Nodup ∧
      b.concealed.length + b.revealed.length = b₀.concealed.length)

/-- The pure contract-state fold of the revealed-transition loop of one
bundle. -/
def stateAfterRevealed (witness_txid : Nat) (s : ContractState)
    (l : List (Transition × List Nat)) : ContractState :=
  l.foldl (fun acc p => acc.add_transition witness_txid p.1) s

/-- The pure contract-state fold of the anchored-bundle loop. -/
def stateAfterBundles (s : ContractState) (l : List (Anchor × TransitionBundle)) :
    ContractState :=
  l.foldl (fun acc p => stateAfterRevealed p.1.txid acc p.2.revealed) s

/-- The pure contract-state fold of the state-extension loop. -/
def stateAfterExts (s : ContractState) (l : List Extension) : ContractState :=
  l.foldl (fun acc e => acc.add_extension e) s

/-- The (witness txid, node id) pairs a consignment's anchored bundles fold
into the contract state, in fold order. -/
def pairsOf (l : List (Anchor × TransitionBundle)) : List (Nat × Nat) :=
  l.flatMap (fun p => p.2.revealed.map (fun q => (p.1.txid, q.1.node_id)))

/-- The store with every table empty. -/
def Db.empty : Db :=
  { contracts := [], schemata := [], genesis := [], anchors := [], bundles := [],
    transitions := [], transition_txid := [], contract_transitions := [],
    extensions := [] }

/-- Concrete merge operations for witnesses: keep the previously stored value,
an idempotent combine. -/
def opsFst : MergeOps :=
  { mGenesis := fun a _ => a, mAnchor := fun a _ => a,
    mTransition := fun a _ => a, mExtension := fun a _ => a }

/-- Concrete world: the revealed seal of the parent transition. -/
def sealP : RevealedSeal := { txid := some 200, vout := 0 }

/-- Concrete world: the revealed seal of the child transition. -/
def sealC : RevealedSeal := { txid := some 300, vout := 0 }

/-- Concrete world: parent transition (node id 2, type 4, no parents). -/
def tP : Transition :=
  { node_id := 2, transition_type := 4, owned_rights := [[sealP]],
    parent_outputs := [] }

/-- Concrete world: child transition (node id 3, type 5, spending node 2). -/
def tC : Transition :=
  { node_id := 3, transition_type := 5, owned_rights := [[sealC]],
    parent_outputs := [2] }

/-- Concrete world: the genesis of contract 1 under schema 7. -/
def g1 : Genesis := { contract_id := 1, schema_id := 7 }

/-- Concrete world: schema 7 with no root schema. -/
def s7 : Schema := { schema_id := 7, root_id := 0 }

/-- Concrete world: a stash holding contract 1 with transitions 2 and 3 in two
all-concealed bundles anchored at witness txids 20 and 30. -/
def dbW : Db :=
  { contracts := []
    schemata := [(7, s7)]
    genesis := [(1, g1)]
    anchors := [(20, { txid := 20, leaves := [(1, 92)] }),
                (30, { txid := 30, leaves := [(1, 93)] })]
    bundles := [(20, { bId := 92, concealed := [(2, [])], revealed := [] }),
                (30, { bId := 93, concealed := [(3, [2])], revealed := [] })]
    transitions := [(2, tP), (3, tC)]
    transition_txid := [(2, 20), (3, 30)]
    contract_transitions := [((1, 4), [2]), ((1, 5), [3])]
    extensions := [] }

/-- Concrete world: the caller's selection disclosing only the child's
outpoint. -/
def selW : OutpointSelection :=
  OutpointSelection.Outpoints [{ txid := 300, vout := 0 }]

/-- A consignment with no anchored bundles and no extensions, used by concrete
ingest instances. -/
def cEmpty : InmemConsignment :=
  { schema := s7, root_schema := none, genesis := g1, tips := [],
    endpoints := [], anchored_bundles := [], state_extensions := [] }

/-- A consignment whose single anchor does not cover its bundle for contract 1
(the anchor's only leaf belongs to contract 9). -/
def cBad : InmemConsignment :=
  { schema := s7, root_schema := none, genesis := g1, tips := [],
    endpoints := [],
    anchored_bundles := [({ txid := 40, leaves := [(9, 92)] },
                          { bId := 92, concealed := [(2, [])], revealed := [] })],
    state_extensions := [] }

/-- A fully valid validation status. -/
def stValid : ValidationStatus := { validity := Validity.Valid, detail := 0 }

/-- An unresolved-transactions validation status. -/
def stUnres : ValidationStatus :=
  { validity := Validity.UnresolvedTransactions, detail := 1 }

/-- An invalid validation status. -/
def stInvalid : ValidationStatus := { validity := Validity.Invalid, detail := 2 }

/-- A collector whose bundle map exceeds the protocol maximum by one. -/
def bigCol : Collector :=
  { contract_id := 1
    anchored_bundles :=
      List.replicate 65536 (0, ({ txid := 0, leaves := [] }, { bId := 0, concealed := [], revealed := [] }))
    endpoints := []
    endpoint_inputs := [] }

/-- The consignment composed from `dbW` with an empty include set. -/
def cEmptyCompose : InmemConsignment :=
  { schema := s7, root_schema := none, genesis := g1, tips := [],
    endpoints := [], anchored_bundles := [], state_extensions := [] }

/-- A collector about to run the backward closure from the child transition's
parent queue. -/
def colQueueW : Collector :=
  { contract_id := 1, anchored_bundles := [], endpoints := [],
    endpoint_inputs := [3] }

/-- The store left behind by ingesting `cEmpty` into the empty store: schema,
genesis and the initial contract state of contract 1. -/
def dbAfterIngest : Db :=
  { contracts := [(1, { contract_id := 1, genesis_id := 1, transitions := [],
                        extensions := [] })]
    schemata := [(7, s7)]
    genesis := [(1, g1)]
    anchors := [], bundles := [], transitions := [], transition_txid := [],
    contract_transitions := [], extensions := [] }

/-- The collector produced by the forward pass over the child transition in
the concrete world. -/
def col3W : Collector :=
  { contract_id := 1
    anchored_bundles := [(30, ({ txid := 30, leaves := [(1, 93)] },
      { bId := 93, concealed := [], revealed := [(tC, [2])] }))]
    endpoints := [(93, SealEndpoint.mk sealC)]
    endpoint_inputs := [2] }

/-- The consignment composed from the concrete world with include set {5} and
the child-only selection: the backward closure walks the parent and records
its endpoint too. -/
def cComposedW : InmemConsignment :=
  { schema := s7
    root_schema := none
    genesis := g1
    tips := [{ node_id := 3, vout := 0 }]
    endpoints := [(93, SealEndpoint.mk sealC), (92, SealEndpoint.mk sealP)]
    anchored_bundles := [({ txid := 30, leaves := [(1, 93)] },
        { bId := 93, concealed := [], revealed := [(tC, [2])] }),
      ({ txid := 20, leaves := [(1, 92)] },
        { bId := 92, concealed := [], revealed := [(tP, [])] })]
    state_extensions := [] }

theorem AListGet_put_self (l : List (Nat × α)) (k : Nat) (v : α) :
    AListGet (AListPut l k v) k = some v := by
  induction l with
  | nil => simp [AListPut, AListGet]
  | cons e rest ih =>
      obtain ⟨k', v'⟩ := e
      by_cases h : k' = k
      · simp [AListPut, AListGet, h]
      · simp [AListPut, AListGet, h, ih]

theorem AListGet_mem {l : List (Nat × α)} {k : Nat} {v : α}
    (h : AListGet l k = some v) : (k, v) ∈ l := by
  induction l with
  | nil => simp [AListGet] at h
  | cons e rest ih =>
      obtain ⟨k', v'⟩ := e
      by_cases hk : k' = k
      · simp [AListGet, hk] at h
        simp [hk, h]
      · simp [AListGet, hk] at h
        exact List.mem_cons_of_mem _ (ih h)

theorem AListGet_put_isSome {l : List (Nat × α)} {k k' : Nat} {v : α}
    (h : (AListGet l k').isSome) : (AListGet (AListPut l k v) k').isSome := by
  induction l with
  | nil => simp [AListGet] at h
  | cons e rest ih =>
      obtain ⟨k₀, v₀⟩ := e
      by_cases hk : k₀ = k
      · subst hk
        by_cases hk' : k₀ = k'
        · simp [AListPut, AListGet, hk']
        · simp [AListGet, hk'] at h
          simp [AListPut, AListGet, hk', h]
      · by_cases hk' : k₀ = k'
        · subst hk'
          simp [AListPut, AListGet, hk]
        · simp [AListGet, hk'] at h
          simp [AListPut, AListGet, hk, hk', ih h]

theorem AListGet_put_self_isSome (l : List (Nat × α)) (k : Nat) (v : α) :
    (AListGet (AListPut l k v) k).isSome := by
  simp [AListGet_put_self]

theorem AListGet_put_ne {l : List (Nat × α)} {k k' : Nat} (v : α) (h : k ≠ k') :
    AListGet (AListPut l k v) k' = AListGet l k' := by
  induction l with
  | nil => simp [AListPut, AListGet, h]
  | cons e rest ih =>
      obtain ⟨k₀, v₀⟩ := e
      by_cases hk : k₀ = k
      · subst hk
        simp [AListPut, AListGet, h]
      · simp [AListPut, AListGet, hk, ih]

theorem mem_insertUniq [DecidableEq α] {l : List α} {x y : α} :
    y ∈ insertUniq l x ↔ y ∈ l ∨ y = x := by
  unfold insertUniq
  by_cases h : x ∈ l
  · simp [h]
    intro hy
    subst hy
    exact h
  · simp [h]

theorem insertUniq_of_mem [DecidableEq α] {l : List α} {x : α} (h : x ∈ l) :
    insertUniq l x = l := by
  simp [insertUniq, h]

theorem mem_foldl_insertUniq_of_mem_acc [DecidableEq α] {acc : List α}
    {y : α} (P : List α) (h : y ∈ acc) : y ∈ P.foldl insertUniq acc := by
  induction P generalizing acc with
  | nil => simpa using h
  | cons p rest ih =>
      exact ih (mem_insertUniq.mpr (Or.inl h))

theorem mem_foldl_insertUniq_of_mem [DecidableEq α] {P : List α} {x : α}
    (acc : List α) (h : x ∈ P) : x ∈ P.foldl insertUniq acc := by
  induction P generalizing acc with
  | nil => simp at h
  | cons p rest ih =>
      rcases List.mem_cons.mp h with h | h
      · subst h
        exact mem_foldl_insertUniq_of_mem_acc rest (mem_insertUniq.mpr (Or.inr rfl))
      · exact ih _ h

theorem foldl_insertUniq_eq_self [DecidableEq α] {P acc : List α}
    (h : ∀ x ∈ P, x ∈ acc) : P.foldl insertUniq acc = acc := by
  induction P with
  | nil => rfl
  | cons p rest ih =>
      have hp : p ∈ acc := h p (List.mem_cons_self p rest)
      simp only [List.foldl_cons, insertUniq_of_mem hp]
      exact ih (fun x hx => h x (List.mem_cons_of_mem _ hx))

theorem foldl_insertUniq_idem [DecidableEq α] (P acc : List α) :
    P.foldl insertUniq (P.foldl insertUniq acc) = P.foldl insertUniq acc :=
  foldl_insertUniq_eq_self (fun _ hx => mem_foldl_insertUniq_of_mem acc hx)

theorem consignment_ok_fields {col : Collector} {schema : Schema}
    {rs : Option Schema} {g : Genesis} {tips : List NodeOutpoint}
    {c : InmemConsignment}
    (h : col.consignment schema rs g tips = Except.ok c) :
    c.tips = tips ∧ c.state_extensions = [] ∧ c.endpoints = col.endpoints := by
  unfold Collector.consignment at h
  by_cases hlen : col.anchored_bundles.length > MAX_BUNDLES
  · simp [hlen] at h
  · simp [hlen] at h
    subst h
    exact ⟨rfl, rfl, rfl⟩

theorem compose_ok_peel {db : Db} {fuel cid : Nat} {inc : List Nat}
    {sel : OutpointSelection} {c : InmemConsignment}
    (h : compose_consignment db fuel cid inc sel = Except.ok (some c)) :
    ∃ g schema rs col tips colIt,
      AListGet db.genesis cid = some g ∧
      AListGet db.schemata g.schema_id = some schema ∧
      composeForward db cid sel (Collector.new cid) inc = Except.ok (col, tips) ∧
      Collector.iterateN db fuel col = Except.ok (some colIt) ∧
      colIt.consignment schema rs g tips = Except.ok c := by
  unfold compose_consignment at h
  cases hg : AListGet db.genesis cid with
  | none => rw [hg] at h; simp at h
  | some g =>
  rw [hg] at h
  simp only [] at h
  cases hs : AListGet db.schemata g.schema_id with
  | none => rw [hs] at h; simp at h
  | some schema =>
  rw [hs] at h
  simp only [] at h
  by_cases hroot : schema.root_id ≠ 0
  · rw [if_pos hroot] at h
    cases hrs : AListGet db.schemata schema.root_id with
    | none => rw [hrs] at h; simp at h
    | some rschema =>
    rw [hrs] at h
    simp only [] at h
    cases hfwd : composeForward db cid sel (Collector.new cid) inc with
    | error e => rw [hfwd] at h; simp at h
    | ok fwd =>
    rw [hfwd] at h
    obtain ⟨col, tips⟩ := fwd
    simp only [] at h
    cases hit : Collector.iterateN db fuel col with
    | error e => rw [hit] at h; simp at h
    | ok o =>
    rw [hit] at h
    cases o with
    | none => simp at h
    | some colIt =>
    simp only [] at h
    cases hcons : colIt.consignment schema (some rschema) g tips with
    | error e => rw [hcons] at h; simp at h
    | ok c' =>
    rw [hcons] at h
    simp at h
    subst h
    refine ⟨g, schema, some rschema, col, tips, colIt, ?_, ?_, ?_, ?_, ?_⟩ <;>
      first
        | rfl
        | exact hg
        | exact hs
        | exact hfwd
        | exact hit
        | exact hcons
  · rw [if_neg hroot] at h
    simp only [] at h
    cases hfwd : composeForward db cid sel (Collector.new cid) inc with
    | error e => rw [hfwd] at h; simp at h
    | ok fwd =>
    rw [hfwd] at h
    obtain ⟨col, tips⟩ := fwd
    simp only [] at h
    cases hit : Collector.iterateN db fuel col with
    | error e => rw [hit] at h; simp at h
    | ok o =>
    rw [hit] at h
    cases o with
    | none => simp at h
    | some colIt =>
    simp only [] at h
    cases hcons : colIt.consignment schema none g tips with
    | error e => rw [hcons] at h; simp at h
    | ok c' =>
    rw [hcons] at h
    simp at h
    subst h
    refine ⟨g, schema, none, col, tips, colIt, ?_, ?_, ?_, ?_, ?_⟩ <;>
      first
        | rfl
        | exact hg
        | exact hs
        | exact hfwd
        | exact hit
        | exact hcons

/-- C1: if the validator's verdict is neither Valid nor
UnresolvedTransactions-with-force, `process_consignment` performs no store
writes at all, leaves the persisted contract state unchanged, and returns the
verdict unchanged: the result is exactly the verdict paired with the
untouched store. -/
theorem c1_rejected_consignment_leaves_store_unchanged (ops : MergeOps)
    (db : Db) (c : InmemConsignment) (status : ValidationStatus) (force : Bool)
    (h : ¬(status.validity = Validity.Valid ∨
      (status.validity = Validity.UnresolvedTransactions ∧ force = true))) :
    process_consignment ops db c status force = IngestResult.ok status db := by
  simp [process_consignment, h]

/-- C1 witness: an invalid verdict on the concrete empty store returns the
verdict and the store unchanged. -/
theorem c1_witness :
    ¬(stInvalid.validity = Validity.Valid ∨
      (stInvalid.validity = Validity.UnresolvedTransactions ∧ false = true)) ∧
    process_consignment opsFst Db.empty cEmpty stInvalid false =
      IngestResult.ok stInvalid Db.empty :=
  ⟨by decide,
   c1_rejected_consignment_leaves_store_unchanged opsFst Db.empty cEmpty
     stInvalid false (by decide)⟩

/-- C6: when the accumulated anchored-bundle map has more entries than the
protocol's maximum bundle count, `Collector::consignment` fails with the
oversized-bundle-set error and returns no consignment. -/
theorem c6_oversized_bundle_set (col : Collector) (schema : Schema)
    (rs : Option Schema) (g : Genesis) (tips : List NodeOutpoint)
    (h : col.anchored_bundles.length > MAX_BUNDLES) :
    col.consignment schema rs g tips = Except.error StashError.OutsizedBundle := by
  unfold Collector.consignment
  rw [if_pos h]

/-- C6 witness: a collector holding 65536 anchored bundles fails assembly with
the oversized-bundle-set error. -/
theorem c6_witness :
    bigCol.anchored_bundles.length > MAX_BUNDLES ∧
    bigCol.consignment s7 none g1 [] = Except.error StashError.OutsizedBundle := by
  have hlen : bigCol.anchored_bundles.length > MAX_BUNDLES := by
    have h1 : bigCol.anchored_bundles.length = 65536 := List.length_replicate _ _
    rw [h1]
    decide
  exact ⟨hlen, c6_oversized_bundle_set bigCol s7 none g1 [] hlen⟩

/-- C8: whenever `process_consignment` returns successfully, its return value
is exactly the status produced by the external validator, unchanged — on the
abort path and on the merge path alike. -/
theorem c8_success_returns_validator_status (ops : MergeOps) (db : Db)
    (c : InmemConsignment) (status : ValidationStatus) (force : Bool)
    (st : ValidationStatus) (db' : Db)
    (h : process_consignment ops db c status force = IngestResult.ok st db') :
    st = status := by
  unfold process_consignment at h
  by_cases hc : status.validity = Validity.Valid ∨
      (status.validity = Validity.UnresolvedTransactions ∧ force = true)
  · simp only [if_pos hc] at h
    cases hB : ingestBundles ops c.contract_id (ingestPreamble ops db c)
        ((AListGet db.contracts c.contract_id).getD
          (ContractState.start c.contract_id c.genesis)) c.anchored_bundles with
    | ok dbx sx => rw [hB] at h; injection h with h1 h2; exact h1.symm
    | panic dbx => rw [hB] at h; exact absurd h (by simp)
  · simp only [if_neg hc] at h
    injection h with h1 h2
    exact h1.symm

/-- C8 witness: forcing an unresolved-transactions consignment into the empty
store succeeds and returns exactly the validator's status. -/
theorem c8_witness :
    process_consignment opsFst Db.empty cEmpty stUnres true =
      IngestResult.ok stUnres dbAfterIngest ∧ stUnres = stUnres :=
  ⟨by decide,
   c8_success_returns_validator_status opsFst Db.empty cEmpty stUnres true
     stUnres dbAfterIngest (by decide)⟩

/-- C9: every consignment returned by `compose_consignment` has an empty list
of state extensions, for every contract, include set and outpoint selection. -/
theorem c9_composed_state_extensions_empty (db : Db) (fuel cid : Nat)
    (inc : List Nat) (sel : OutpointSelection) (c : InmemConsignment)
    (h : compose_consignment db fuel cid inc sel = Except.ok (some c)) :
    c.state_extensions = [] := by
  obtain ⟨g, schema, rs, col, tips, colIt, _, _, _, _, hcons⟩ := compose_ok_peel h
  exact (consignment_ok_fields hcons).2.1

/-- C9 witness: the consignment composed from the concrete store has no state
extensions. -/
theorem c9_witness :
    compose_consignment dbW 1 1 [] OutpointSelection.All =
      Except.ok (some cEmptyCompose) ∧
    cEmptyCompose.state_extensions = [] :=
  ⟨rfl,
   c9_composed_state_extensions_empty dbW 1 1 [] OutpointSelection.All
     cEmptyCompose rfl⟩

/-- C10: the tips placed in the composed consignment are exactly those
returned by the forward `Collector::process` passes over the requested
transition types; the tips returned by the backward-closure pass are
discarded and never enter the consignment. -/
theorem c10_tips_come_from_forward_passes (db : Db) (fuel cid : Nat)
    (inc : List Nat) (sel : OutpointSelection) (col : Collector)
    (tips : List NodeOutpoint) (c : InmemConsignment)
    (hfwd : composeForward db cid sel (Collector.new cid) inc =
      Except.ok (col, tips))
    (h : compose_consignment db fuel cid inc sel = Except.ok (some c)) :
    c.tips = tips := by
  obtain ⟨g, schema, rs, col', tips', colIt, _, _, hfwd', hit, hcons⟩ :=
    compose_ok_peel h
  rw [hfwd] at hfwd'
  injection hfwd' with h1
  have h2 := (consignment_ok_fields hcons).1
  exact h2.trans (congrArg Prod.snd h1).symm

/-- C10 witness: composing with an empty include set gives a consignment whose
tips are exactly the (empty) forward-pass tips. -/
theorem c10_witness :
    composeForward dbW 1 OutpointSelection.All (Collector.new 1) [] =
      Except.ok (Collector.new 1, []) ∧
    compose_consignment dbW 1 1 [] OutpointSelection.All =
      Except.ok (some cEmptyCompose) ∧
    cEmptyCompose.tips = [] :=
  ⟨rfl, rfl,
   c10_tips_come_from_forward_passes dbW 1 1 [] OutpointSelection.All
     (Collector.new 1) [] cEmptyCompose rfl rfl⟩

theorem ingestBundles_cons (ops : MergeOps) (cid : Nat) (db : Db)
    (s : ContractState) (anchor : Anchor) (bundle : TransitionBundle)
    (rest : List (Anchor × TransitionBundle)) :
    ingestBundles ops cid db s ((anchor, bundle) :: rest) =
      match anchor.into_merkle_block cid bundle.bundle_id with
      | none => BundlesOut.panic db
      | some anchorBlock =>
          let db₂ := Db.store_merge_anchor ops db anchorBlock.txid anchorBlock
          let r := ingestRevealed ops cid anchor.txid db₂ s bundle.concealed
            bundle.revealed
          let db₃ := r.1.store_bundle anchor.txid
            { bId := bundle.bId, concealed := r.2.2, revealed := [] }
          ingestBundles ops cid db₃ r.2.1 rest := rfl

theorem ingestBundles_append (ops : MergeOps) (cid : Nat) (db : Db)
    (s : ContractState) (l₁ l₂ : List (Anchor × TransitionBundle)) :
    ingestBundles ops cid db s (l₁ ++ l₂) =
      match ingestBundles ops cid db s l₁ with
      | BundlesOut.ok db' s' => ingestBundles ops cid db' s' l₂
      | BundlesOut.panic d => BundlesOut.panic d := by
  induction l₁ generalizing db s with
  | nil => simp [ingestBundles]
  | cons p rest ih =>
      obtain ⟨anchor, bundle⟩ := p
      simp only [List.cons_append, ingestBundles_cons]
      cases hm : anchor.into_merkle_block cid bundle.bundle_id with
      | none => simp only []
      | some ab =>
          simp only []
          exact ih _ _

/-- C7 counterexample: on a consignment whose single anchor does not cover its
bundle for the contract, `process_consignment` aborts with a panic (the
`expect` call), not with the unrelated-anchor stash-consistency error. -/
theorem c7_counterexample :
    process_consignment opsFst Db.empty cBad stValid false =
      IngestResult.panic (ingestPreamble opsFst Db.empty cBad) ∧
    IngestResult.panic (ingestPreamble opsFst Db.empty cBad) ≠
      IngestResult.err StashError.UnrelatedAnchor
        (ingestPreamble opsFst Db.empty cBad) := by
  exact ⟨by decide, by decide⟩

/-- C7 (amended): when converting an anchor to its full Merkle-block form
scoped to (contract id, bundle id) fails, `process_consignment` aborts the
whole import abnormally — it panics at the failing pair, leaving exactly the
writes made before that pair and performing no further writes; the failure is
not surfaced as the unrelated-anchor error. -/
theorem c7_anchor_conversion_failure_aborts_import (ops : MergeOps) (db : Db)
    (c : InmemConsignment) (status : ValidationStatus) (force : Bool)
    (pre rest : List (Anchor × TransitionBundle)) (a : Anchor)
    (b : TransitionBundle) (db' : Db) (s' : ContractState)
    (hgate : status.validity = Validity.Valid ∨
      (status.validity = Validity.UnresolvedTransactions ∧ force = true))
    (hab : c.anchored_bundles = pre ++ (a, b) :: rest)
    (hpre : ingestBundles ops c.contract_id (ingestPreamble ops db c)
      ((AListGet db.contracts c.contract_id).getD
        (ContractState.start c.contract_id c.genesis)) pre = BundlesOut.ok db' s')
    (hfail : a.into_merkle_block c.contract_id b.bundle_id = none) :
    process_consignment ops db c status force = IngestResult.panic db' := by
  simp only [process_consignment]
  rw [if_pos hgate, hab, ingestBundles_append, hpre]
  simp only []
  unfold ingestBundles
  simp only []
  rw [hfail]

/-- C7 witness: the amended behaviour on the concrete failing consignment. -/
theorem c7_witness :
    (stValid.validity = Validity.Valid ∨
      (stValid.validity = Validity.UnresolvedTransactions ∧ false = true)) ∧
    process_consignment opsFst Db.empty cBad stValid false =
      IngestResult.panic (ingestPreamble opsFst Db.empty cBad) :=
  ⟨Or.inl rfl,
   c7_anchor_conversion_failure_aborts_import opsFst Db.empty cBad stValid false
     [] [] { txid := 40, leaves := [(9, 92)] }
     { bId := 92, concealed := [(2, [])], revealed := [] }
     (ingestPreamble opsFst Db.empty cBad) (ContractState.start 1 g1)
     (Or.inl rfl) rfl (by decide) (by decide)⟩

theorem ContractState_eq_of_fields {x y : ContractState}
    (h1 : x.contract_id = y.contract_id) (h2 : x.genesis_id = y.genesis_id)
    (h3 : x.transitions = y.transitions) (h4 : x.extensions = y.extensions) :
    x = y := by
  cases x
  cases y
  simp only [] at h1 h2 h3 h4
  simp [h1, h2, h3, h4]

theorem stateAfterRevealed_transitions (wt : Nat) (s : ContractState)
    (l : List (Transition × List Nat)) :
    (stateAfterRevealed wt s l).transitions =
      (l.map (fun q => ((wt, q.1.node_id) : Nat × Nat))).foldl insertUniq
        s.transitions := by
  induction l generalizing s with
  | nil => rfl
  | cons p rest ih =>
      simp only [stateAfterRevealed, List.foldl_cons, List.map_cons]
      rw [← stateAfterRevealed]
      rw [ih]
      rfl

theorem stateAfterRevealed_other_fields (wt : Nat) (s : ContractState)
    (l : List (Transition × List Nat)) :
    (stateAfterRevealed wt s l).contract_id = s.contract_id ∧
    (stateAfterRevealed wt s l).genesis_id = s.genesis_id ∧
    (stateAfterRevealed wt s l).extensions = s.extensions := by
  induction l generalizing s with
  | nil => exact ⟨rfl, rfl, rfl⟩
  | cons p rest ih =>
      simp only [stateAfterRevealed, List.foldl_cons]
      rw [← stateAfterRevealed]
      exact ih _

theorem stateAfterBundles_transitions (s : ContractState)
    (l : List (Anchor × TransitionBundle)) :
    (stateAfterBundles s l).transitions =
      (pairsOf l).foldl insertUniq s.transitions := by
  induction l generalizing s with
  | nil => rfl
  | cons p rest ih =>
      simp only [stateAfterBundles, List.foldl_cons]
      rw [← stateAfterBundles, ih, stateAfterRevealed_transitions]
      simp [pairsOf, List.foldl_append]

theorem stateAfterBundles_other_fields (s : ContractState)
    (l : List (Anchor × TransitionBundle)) :
    (stateAfterBundles s l).contract_id = s.contract_id ∧
    (stateAfterBundles s l).genesis_id = s.genesis_id ∧
    (stateAfterBundles s l).extensions = s.extensions := by
  induction l generalizing s with
  | nil => exact ⟨rfl, rfl, rfl⟩
  | cons p rest ih =>
      simp only [stateAfterBundles, List.foldl_cons]
      rw [← stateAfterBundles]
      obtain ⟨i1, i2, i3⟩ := ih (stateAfterRevealed p.1.txid s p.2.revealed)
      obtain ⟨r1, r2, r3⟩ := stateAfterRevealed_other_fields p.1.txid s p.2.revealed
      exact ⟨i1.trans r1, i2.trans r2, i3.trans r3⟩

theorem stateAfterExts_extensions (s : ContractState) (l : List Extension) :
    (stateAfterExts s l).extensions =
      (l.map Extension.node_id).foldl insertUniq s.extensions := by
  induction l generalizing s with
  | nil => rfl
  | cons e rest ih =>
      simp only [stateAfterExts, List.foldl_cons, List.map_cons]
      rw [← stateAfterExts, ih]
      rfl

theorem stateAfterExts_other_fields (s : ContractState) (l : List Extension) :
    (stateAfterExts s l).contract_id = s.contract_id ∧
    (stateAfterExts s l).genesis_id = s.genesis_id ∧
    (stateAfterExts s l).transitions = s.transitions := by
  induction l generalizing s with
  | nil => exact ⟨rfl, rfl, rfl⟩
  | cons e rest ih =>
      simp only [stateAfterExts, List.foldl_cons]
      rw [← stateAfterExts]
      exact ih _

theorem state_ingest_idem (s₀ : ContractState)
    (bs : List (Anchor × TransitionBundle)) (es : List Extension) :
    stateAfterExts
      (stateAfterBundles (stateAfterExts (stateAfterBundles s₀ bs) es) bs) es =
    stateAfterExts (stateAfterBundles s₀ bs) es := by
  apply ContractState_eq_of_fields
  · obtain ⟨e1, _, _⟩ := stateAfterExts_other_fields
      (stateAfterBundles (stateAfterExts (stateAfterBundles s₀ bs) es) bs) es
    obtain ⟨b1, _, _⟩ := stateAfterBundles_other_fields
      (stateAfterExts (stateAfterBundles s₀ bs) es) bs
    obtain ⟨e1', _, _⟩ := stateAfterExts_other_fields (stateAfterBundles s₀ bs) es
    rw [e1, b1, e1']
  · obtain ⟨_, e2, _⟩ := stateAfterExts_other_fields
      (stateAfterBundles (stateAfterExts (stateAfterBundles s₀ bs) es) bs) es
    obtain ⟨_, b2, _⟩ := stateAfterBundles_other_fields
      (stateAfterExts (stateAfterBundles s₀ bs) es) bs
    obtain ⟨_, e2', _⟩ := stateAfterExts_other_fields (stateAfterBundles s₀ bs) es
    rw [e2, b2, e2']
  · obtain ⟨_, _, e3⟩ := stateAfterExts_other_fields
      (stateAfterBundles (stateAfterExts (stateAfterBundles s₀ bs) es) bs) es
    rw [e3, stateAfterBundles_transitions]
    obtain ⟨_, _, e3'⟩ := stateAfterExts_other_fields (stateAfterBundles s₀ bs) es
    rw [e3', stateAfterBundles_transitions]
    exact foldl_insertUniq_idem _ _
  · rw [stateAfterExts_extensions, stateAfterExts_extensions]
    obtain ⟨_, _, b3⟩ := stateAfterBundles_other_fields
      (stateAfterExts (stateAfterBundles s₀ bs) es) bs
    rw [b3, stateAfterExts_extensions]
    obtain ⟨_, _, b3'⟩ := stateAfterBundles_other_fields s₀ bs
    rw [b3']
    exact foldl_insertUniq_idem _ _

theorem ingestRevealed_state (ops : MergeOps) (cid wt : Nat) (db : Db)
    (s : ContractState) (data : List (Nat × List Nat))
    (l : List (Transition × List Nat)) :
    (ingestRevealed ops cid wt db s data l).2.1 = stateAfterRevealed wt s l := by
  induction l generalizing db s data with
  | nil => rfl
  | cons p rest ih =>
      obtain ⟨t, inputs⟩ := p
      simp only [ingestRevealed, stateAfterRevealed, List.foldl_cons]
      rw [← stateAfterRevealed]
      exact ih _ _ _

theorem ingestBundles_state (ops : MergeOps) (cid : Nat) (db : Db)
    (s : ContractState) (l : List (Anchor × TransitionBundle)) (db' : Db)
    (s' : ContractState)
    (h : ingestBundles ops cid db s l = BundlesOut.ok db' s') :
    s' = stateAfterBundles s l := by
  induction l generalizing db s with
  | nil =>
      simp only [ingestBundles] at h
      injection h with h1 h2
      exact h2.symm
  | cons p rest ih =>
      obtain ⟨anchor, bundle⟩ := p
      rw [ingestBundles_cons] at h
      cases hm : anchor.into_merkle_block cid bundle.bundle_id with
      | none => rw [hm] at h; simp at h
      | some ab =>
          rw [hm] at h
          simp only [] at h
          have := ih _ _ h
          rw [this]
          simp only [stateAfterBundles, List.foldl_cons]
          rw [← stateAfterBundles, ingestRevealed_state]
          rfl

theorem ingestExtensions_snd (ops : MergeOps) (db : Db) (s : ContractState)
    (l : List Extension) :
    (ingestExtensions ops db s l).2 = stateAfterExts s l := by
  induction l generalizing db s with
  | nil => rfl
  | cons e rest ih =>
      simp only [ingestExtensions, stateAfterExts, List.foldl_cons]
      rw [← stateAfterExts]
      exact ih _ _

theorem process_ok_contracts (ops : MergeOps) (db : Db) (c : InmemConsignment)
    (status : ValidationStatus) (force : Bool) (st : ValidationStatus) (db' : Db)
    (hgate : status.validity = Validity.Valid ∨
      (status.validity = Validity.UnresolvedTransactions ∧ force = true))
    (h : process_consignment ops db c status force = IngestResult.ok st db') :
    AListGet db'.contracts c.contract_id =
      some (stateAfterExts
        (stateAfterBundles
          ((AListGet db.contracts c.contract_id).getD
            (ContractState.start c.contract_id c.genesis))
          c.anchored_bundles)
        c.state_extensions) := by
  simp only [process_consignment] at h
  rw [if_pos hgate] at h
  cases hB : ingestBundles ops c.contract_id (ingestPreamble ops db c)
      ((AListGet db.contracts c.contract_id).getD
        (ContractState.start c.contract_id c.genesis)) c.anchored_bundles with
  | panic dbx => rw [hB] at h; simp at h
  | ok db₂ s₂ =>
      rw [hB] at h
      simp only [] at h
      injection h with h1 h2
      rw [← h2]
      simp only [Db.store_contract]
      rw [AListGet_put_self]
      rw [ingestExtensions_snd, ingestBundles_state ops c.contract_id _ _ _ _ _ hB]

/-- C4: ingesting the same valid consignment twice yields the same final
persisted contract state as ingesting it once — the second successful call
neither duplicates nor regresses the stored `ContractState`. -/
theorem c4_double_ingest_same_contract_state (ops : MergeOps) (db : Db)
    (c : InmemConsignment) (status : ValidationStatus) (force : Bool)
    (st₁ st₂ : ValidationStatus) (db₁ db₂ : Db)
    (hv : status.validity = Validity.Valid)
    (h1 : process_consignment ops db c status force = IngestResult.ok st₁ db₁)
    (h2 : process_consignment ops db₁ c status force = IngestResult.ok st₂ db₂) :
    AListGet db₂.contracts c.contract_id = AListGet db₁.contracts c.contract_id := by
  have hc1 := process_ok_contracts ops db c status force st₁ db₁ (Or.inl hv) h1
  have hc2 := process_ok_contracts ops db₁ c status force st₂ db₂ (Or.inl hv) h2
  rw [hc1] at hc2
  rw [hc1, hc2]
  simp only [Option.getD_some]
  exact congrArg some (state_ingest_idem _ _ _)

/-- C4 witness: ingesting the empty-bundle consignment twice into the empty
store leaves the persisted contract state of contract 1 identical after the
first and the second call. -/
theorem c4_witness :
    stValid.validity = Validity.Valid ∧
    process_consignment opsFst Db.empty cEmpty stValid true =
      IngestResult.ok stValid dbAfterIngest ∧
    process_consignment opsFst dbAfterIngest cEmpty stValid true =
      IngestResult.ok stValid dbAfterIngest ∧
    AListGet dbAfterIngest.contracts cEmpty.contract_id =
      AListGet dbAfterIngest.contracts cEmpty.contract_id :=
  ⟨rfl, by decide, by decide,
   c4_double_ingest_same_contract_state opsFst Db.empty cEmpty stValid true
     stValid stValid dbAfterIngest dbAfterIngest rfl (by decide) (by decide)⟩

theorem resolveBundle_ok_spec {db : Db} {col : Collector} {wt : Nat}
    {colR : Collector} {a : Anchor} {b : TransitionBundle}
    (h : Collector.resolveBundle db col wt = Except.ok (colR, a, b)) :
    colR.contract_id = col.contract_id ∧
    colR.endpoints = col.endpoints ∧
    colR.endpoint_inputs = col.endpoint_inputs ∧
    ((AListGet col.anchored_bundles wt = some (a, b) ∧ colR = col) ∨
     (AListGet col.anchored_bundles wt = none ∧
      (∃ a₀, AListGet db.anchors wt = some a₀ ∧
        AListGet db.bundles wt = some b ∧
        a₀.to_merkle_proof col.contract_id = Except.ok a ∧
        colR = { col with
          anchored_bundles := AListPut col.anchored_bundles wt (a, b) }))) := by
  unfold Collector.resolveBundle at h
  cases hc : AListGet col.anchored_bundles wt with
  | some ab =>
      rw [hc] at h
      simp only [] at h
      injection h with h1
      injection h1 with hA hB
      injection hB with hC hD
      subst hA
      subst hC
      subst hD
      exact ⟨rfl, rfl, rfl, Or.inl ⟨rfl, rfl⟩⟩
  | none =>
      rw [hc] at h
      simp only [] at h
      cases ha : AListGet db.anchors wt with
      | none => rw [ha] at h; simp at h
      | some a₀ =>
      rw [ha] at h
      simp only [] at h
      cases hb : AListGet db.bundles wt with
      | none => rw [hb] at h; simp at h
      | some b₀ =>
      rw [hb] at h
      simp only [] at h
      cases hp : a₀.to_merkle_proof col.contract_id with
      | error e => rw [hp] at h; simp at h
      | ok aP =>
      rw [hp] at h
      simp only [] at h
      injection h with h1
      injection h1 with hA hB
      injection hB with hC hD
      subst hA
      subst hC
      subst hD
      refine ⟨rfl, rfl, rfl, Or.inr ⟨?_, a₀, ?_, ?_, ?_, rfl⟩⟩ <;>
        first
          | rfl
          | exact hc
          | exact ha
          | exact hb
          | exact hp

theorem processOne_ok_spec {db : Db} {sel : OutpointSelection} {col : Collector}
    {id : Nat} {col' : Collector} {tips : List NodeOutpoint}
    (h : Collector.processOne db sel col id = Except.ok (col', tips)) :
    ∃ t wt colR a b b',
      AListGet db.transitions id = some t ∧
      AListGet db.transition_txid id = some wt ∧
      Collector.resolveBundle db col wt = Except.ok (colR, a, b) ∧
      b.reveal_transition t = Except.ok b' ∧
      tips = (matchingSeals wt t sel).map (fun p => NodeOutpoint.mk id p.1) ∧
      col' = { colR with
        endpoints := colR.endpoints ++
          (matchingSeals wt t sel).map
            (fun p => (b.bundle_id, SealEndpoint.mk p.2)),
        endpoint_inputs := colR.endpoint_inputs ++
          (matchingSeals wt t sel).flatMap (fun _ => t.parent_outputs),
        anchored_bundles := AListPut colR.anchored_bundles wt (a, b') } := by
  unfold Collector.processOne at h
  cases ht : AListGet db.transitions id with
  | none => rw [ht] at h; simp at h
  | some t =>
  rw [ht] at h
  simp only [] at h
  cases hw : AListGet db.transition_txid id with
  | none => rw [hw] at h; simp at h
  | some wt =>
  rw [hw] at h
  simp only [] at h
  cases hres : Collector.resolveBundle db col wt with
  | error e => rw [hres] at h; simp at h
  | ok r =>
  obtain ⟨colR, a, b⟩ := r
  rw [hres] at h
  simp only [] at h
  cases hrev : b.reveal_transition t with
  | error e => rw [hrev] at h; simp at h
  | ok b' =>
  rw [hrev] at h
  simp only [] at h
  injection h with h1
  injection h1 with hA hB
  subst hA
  subst hB
  refine ⟨t, wt, colR, a, b, b', ?_, ?_, ?_, ?_, rfl, rfl⟩ <;>
    first
      | rfl
      | exact ht
      | exact hw
      | exact hres
      | exact hrev

theorem process_inputs {db : Db} {sel : OutpointSelection} {ids : List Nat}
    {col col' : Collector} {tips : List NodeOutpoint}
    (h : Collector.process db sel col ids = Except.ok (col', tips)) :
    ∀ p ∈ col'.endpoint_inputs, p ∈ col.endpoint_inputs ∨
      ∃ id ∈ ids, ∃ t, AListGet db.transitions id = some t ∧
        p ∈ t.parent_outputs := by
  induction ids generalizing col tips with
  | nil =>
      unfold Collector.process at h
      injection h with h1
      injection h1 with hA hB
      subst hA
      intro p hp
      exact Or.inl hp
  | cons id rest ih =>
      unfold Collector.process at h
      cases h1 : Collector.processOne db sel col id with
      | error e => rw [h1] at h; simp at h
      | ok r =>
      obtain ⟨col₁, tips₁⟩ := r
      rw [h1] at h
      simp only [] at h
      cases h2 : Collector.process db sel col₁ rest with
      | error e => rw [h2] at h; simp at h
      | ok r2 =>
      obtain ⟨col₂, tips₂⟩ := r2
      rw [h2] at h
      simp only [] at h
      injection h with h3
      injection h3 with hA hB
      subst hA
      intro p hp
      rcases ih h2 p hp with hin | ⟨id', hid', t', ht', hpt'⟩
      · obtain ⟨t, wt, colR, a, b, b', ht, hw, hres, hrev, htips, hcol⟩ :=
          processOne_ok_spec h1
        obtain ⟨_, _, hinp, _⟩ := resolveBundle_ok_spec hres
        rw [hcol] at hin
        simp only [] at hin
        rcases List.mem_append.mp hin with hin1 | hin2
        · rw [hinp] at hin1
          exact Or.inl hin1
        · obtain ⟨x, hx, hpx⟩ := List.mem_flatMap.mp hin2
          exact Or.inr ⟨id, List.mem_cons_self id rest, t, ht, hpx⟩
      · exact Or.inr ⟨id', List.mem_cons_of_mem _ hid', t', ht', hpt'⟩

theorem iterateN_some_empty (db : Db) :
    ∀ n (col col' : Collector),
      Collector.iterateN db n col = Except.ok (some col') →
      col'.endpoint_inputs = [] := by
  intro n
  induction n with
  | zero =>
      intro col col' h
      simp [Collector.iterateN] at h
  | succ n ih =>
      intro col col' h
      unfold Collector.iterateN at h
      simp only [] at h
      cases hp : Collector.process db OutpointSelection.All
          { col with endpoint_inputs := [] } col.endpoint_inputs with
      | error e => rw [hp] at h; simp at h
      | ok r =>
      obtain ⟨col₂, tips⟩ := r
      rw [hp] at h
      simp only [] at h
      by_cases hemp : col₂.endpoint_inputs.isEmpty
      · rw [if_pos hemp] at h
        injection h with h1
        injection h1 with h2
        subst h2
        exact List.isEmpty_iff.mp hemp
      · rw [if_neg hemp] at h
        exact ih col₂ col' h

theorem iterateN_no_fuel_exhaustion (db : Db) (rank : Nat → Nat)
    (hrank : ∀ e ∈ db.transitions, ∀ p ∈ e.2.parent_outputs,
      rank p < rank e.1) :
    ∀ B (col : Collector), (∀ i ∈ col.endpoint_inputs, rank i ≤ B) →
      Collector.iterateN db (B + 1) col ≠ Except.ok none := by
  intro B
  induction B with
  | zero =>
      intro col hq
      unfold Collector.iterateN
      simp only []
      cases hp : Collector.process db OutpointSelection.All
          { col with endpoint_inputs := [] } col.endpoint_inputs with
      | error e => simp
      | ok r =>
      obtain ⟨col₂, tips⟩ := r
      simp only []
      have hempty : col₂.endpoint_inputs = [] := by
        cases hne : col₂.endpoint_inputs with
        | nil => rfl
        | cons p ps =>
            exfalso
            have hp2 := process_inputs hp p (by rw [hne]; exact List.mem_cons_self _ _)
            rcases hp2 with hin | ⟨id, hid, t, ht, hpt⟩
            · simp at hin
            · have hr1 : rank p < rank id := hrank _ (AListGet_mem ht) _ hpt
              have hr2 := hq id hid
              omega
      simp [hempty]
  | succ B ih =>
      intro col hq
      unfold Collector.iterateN
      simp only []
      cases hp : Collector.process db OutpointSelection.All
          { col with endpoint_inputs := [] } col.endpoint_inputs with
      | error e => simp
      | ok r =>
      obtain ⟨col₂, tips⟩ := r
      simp only []
      by_cases hemp : col₂.endpoint_inputs.isEmpty
      · simp [hemp]
      · rw [if_neg hemp]
        apply ih
        intro i hi
        have hp2 := process_inputs hp i hi
        rcases hp2 with hin | ⟨id, hid, t, ht, hpt⟩
        · simp at hin
        · have hr1 : rank i < rank id := hrank _ (AListGet_mem ht) _ hpt
          have hr2 := hq id hid
          omega

/-- C5: on a finite acyclic transition graph — witnessed by a rank function
strictly decreasing from each stored transition to its parents — the backward
closure `Collector::iterate` terminates: each round processes the queued
parent ids, clears the queue, and enqueues only strict ancestors, so with
fuel one more than the rank bound of the initial queue the loop never
exhausts its fuel, and whenever it returns a collector the queue has reached
the empty fixed point. -/
theorem c5_backward_closure_terminates (db : Db) (rank : Nat → Nat)
    (col : Collector) (B : Nat)
    (hrank : ∀ e ∈ db.transitions, ∀ p ∈ e.2.parent_outputs,
      rank p < rank e.1)
    (hq : ∀ i ∈ col.endpoint_inputs, rank i ≤ B) :
    Collector.iterateN db (B + 1) col ≠ Except.ok none ∧
    (∀ col', Collector.iterateN db (B + 1) col = Except.ok (some col') →
      col'.endpoint_inputs = []) :=
  ⟨iterateN_no_fuel_exhaustion db rank hrank B col hq,
   fun col' h => iterateN_some_empty db (B + 1) col col' h⟩

/-- C5 witness: the backward closure over the concrete two-transition chain,
queued at the child, never exhausts a fuel of four rounds. -/
theorem c5_witness : Collector.iterateN dbW 4 colQueueW ≠ Except.ok none :=
  (c5_backward_closure_terminates dbW (fun i => i) colQueueW 3
    (by decide) (by decide)).1

theorem mem_AListPut {l : List (Nat × α)} {k : Nat} {v : α} {e : Nat × α}
    (h : e ∈ AListPut l k v) : e = (k, v) ∨ e ∈ l := by
  induction l with
  | nil =>
      unfold AListPut at h
      rw [List.mem_singleton] at h
      exact Or.inl h
  | cons p rest ih =>
      obtain ⟨k', v'⟩ := p
      unfold AListPut at h
      by_cases hk : k' = k
      · rw [if_pos hk] at h
        rcases List.mem_cons.mp h with h | h
        · exact Or.inl h
        · exact Or.inr (List.mem_cons_of_mem _ h)
      · rw [if_neg hk] at h
        rcases List.mem_cons.mp h with h | h
        · exact Or.inr (h ▸ List.mem_cons_self _ _)
        · rcases ih h with h2 | h2
          · exact Or.inl h2
          · exact Or.inr (List.mem_cons_of_mem _ h2)

theorem reveal_ok_cases {b : TransitionBundle} {t : Transition}
    {b' : TransitionBundle} (h : b.reveal_transition t = Except.ok b') :
    (∃ inputs, AListGet b.concealed t.node_id = some inputs ∧
      b' = { b with
              concealed := AListErase b.concealed t.node_id,
              revealed := b.revealed ++ [(t, inputs)] }) ∨
    (AListGet b.concealed t.node_id = none ∧ t.node_id ∈ revealedIds b ∧
      b' = b) := by
  unfold TransitionBundle.reveal_transition at h
  cases hg : AListGet b.concealed t.node_id with
  | some inputs =>
      rw [hg] at h
      simp only [] at h
      injection h with h1
      exact Or.inl ⟨inputs, rfl, h1.symm⟩
  | none =>
      rw [hg] at h
      simp only [] at h
      by_cases hany : b.revealed.any (fun e => e.1.node_id = t.node_id)
      · rw [if_pos hany] at h
        injection h with h1
        refine Or.inr ⟨rfl, ?_, h1.symm⟩
        obtain ⟨e, he, heq⟩ := List.any_eq_true.mp hany
        simp only [decide_eq_true_eq] at heq
        exact heq ▸ List.mem_map_of_mem (fun q => q.1.node_id) he
      · rw [if_neg hany] at h
        simp at h

theorem reveal_bId {b : TransitionBundle} {t : Transition}
    {b' : TransitionBundle} (h : b.reveal_transition t = Except.ok b') :
    b'.bId = b.bId := by
  rcases reveal_ok_cases h with ⟨inputs, _, hb⟩ | ⟨_, _, hb⟩ <;> rw [hb]

theorem processOne_endpoints {db : Db} {sel : OutpointSelection}
    {col : Collector} {id : Nat} {col' : Collector} {tips : List NodeOutpoint}
    (hcc : CacheConsistent db col)
    (h : Collector.processOne db sel col id = Except.ok (col', tips)) :
    col'.endpoints = col.endpoints ++ nodeEndpoints db sel id ∧
    CacheConsistent db col' := by
  obtain ⟨t, wt, colR, a, b, b', ht, hw, hres, hrev, htips, hcol⟩ :=
    processOne_ok_spec h
  obtain ⟨hcid, heps, hinp, hor⟩ := resolveBundle_ok_spec hres
  have hstored : ∃ b₀, AListGet db.bundles wt = some b₀ ∧ b.bId = b₀.bId := by
    rcases hor with ⟨hhit, hR⟩ | ⟨hmiss, a₀, ha, hb, hp, hR⟩
    · exact hcc _ (AListGet_mem hhit)
    · exact ⟨b, hb, rfl⟩
  obtain ⟨b₀, hb₀, hbid⟩ := hstored
  have hccR : CacheConsistent db colR := by
    rcases hor with ⟨hhit, hR⟩ | ⟨hmiss, a₀, ha, hb, hp, hR⟩
    · rw [hR]; exact hcc
    · rw [hR]
      intro e he
      rcases mem_AListPut he with he2 | he2
      · subst he2
        exact ⟨b, hb, rfl⟩
      · exact hcc _ he2
  constructor
  · rw [hcol]
    simp only []
    rw [heps]
    unfold nodeEndpoints
    rw [ht, hw]
    simp only []
    rw [hb₀]
    simp only [TransitionBundle.bundle_id, hbid]
  · rw [hcol]
    intro e he
    simp only [] at he
    rcases mem_AListPut he with he2 | he2
    · subst he2
      exact ⟨b₀, hb₀, (reveal_bId hrev).trans hbid⟩
    · exact hccR _ he2

theorem process_endpoints {db : Db} {sel : OutpointSelection} {ids : List Nat}
    {col col' : Collector} {tips : List NodeOutpoint}
    (hcc : CacheConsistent db col)
    (h : Collector.process db sel col ids = Except.ok (col', tips)) :
    col'.endpoints = col.endpoints ++ ids.flatMap (nodeEndpoints db sel) ∧
    CacheConsistent db col' := by
  induction ids generalizing col tips with
  | nil =>
      unfold Collector.process at h
      injection h with h1
      injection h1 with hA hB
      subst hA
      simp
      exact hcc
  | cons id rest ih =>
      unfold Collector.process at h
      cases h1 : Collector.processOne db sel col id with
      | error e => rw [h1] at h; simp at h
      | ok r =>
      obtain ⟨col₁, tips₁⟩ := r
      rw [h1] at h
      simp only [] at h
      cases h2 : Collector.process db sel col₁ rest with
      | error e => rw [h2] at h; simp at h
      | ok r2 =>
      obtain ⟨col₂, tips₂⟩ := r2
      rw [h2] at h
      simp only [] at h
      injection h with h3
      injection h3 with hA hB
      subst hA
      obtain ⟨he1, hcc1⟩ := processOne_endpoints hcc h1
      obtain ⟨he2, hcc2⟩ := ih hcc1 h2
      refine ⟨?_, hcc2⟩
      rw [he2, he1]
      simp [List.flatMap_cons, List.append_assoc]

/-- C2 counterexample: composing the concrete two-transition contract with
include set {5} and a selection holding only the child's outpoint yields an
endpoint for the parent transition (type 4, outpoint not selected) — the
endpoint set is strictly larger than the set the claim prescribes. -/
theorem c2_counterexample :
    compose_consignment dbW 2 1 [5] selW = Except.ok (some cComposedW) ∧
    (92, SealEndpoint.mk sealP) ∈ cComposedW.endpoints ∧
    (92, SealEndpoint.mk sealP) ∉ specSelectedEndpoints dbW 1 [5] selW ∧
    specSelectedEndpoints dbW 1 [5] selW = [(93, SealEndpoint.mk sealC)] := by
  exact ⟨rfl, by decide, by decide, by decide⟩

/-- C2 (amended): each `Collector::process` pass records exactly the
endpoints of the walked transitions' revealed seals whose outpoints match
that pass's own selection — the forward passes use the caller's selection on
the include-typed transitions, but the backward closure runs `process` with
the select-all policy, so the endpoints of every ancestor it walks (whatever
its transition type) also enter the composed consignment. -/
theorem c2_pass_endpoints_match_pass_selection (db : Db)
    (sel : OutpointSelection) (ids : List Nat) (col col' : Collector)
    (tips : List NodeOutpoint)
    (hcc : CacheConsistent db col)
    (h : Collector.process db sel col ids = Except.ok (col', tips)) :
    col'.endpoints = col.endpoints ++ ids.flatMap (nodeEndpoints db sel) :=
  (process_endpoints hcc h).1

/-- C2 witness: the forward pass over the child transition records exactly
its matching endpoint. -/
theorem c2_witness :
    Collector.process dbW selW (Collector.new 1) [3] =
      Except.ok (col3W, [NodeOutpoint.mk 3 0]) ∧
    col3W.endpoints = (Collector.new 1).endpoints ++
      [3].flatMap (nodeEndpoints dbW selW) := by
  refine ⟨rfl, ?_⟩
  exact c2_pass_endpoints_match_pass_selection dbW selW [3] (Collector.new 1)
    col3W [NodeOutpoint.mk 3 0] (by intro e he; simp [Collector.new] at he) rfl

theorem AListGet_some_key_mem {l : List (Nat × α)} {k : Nat} {v : α}
    (h : AListGet l k = some v) : k ∈ l.map Prod.fst := by
  induction l with
  | nil => simp [AListGet] at h
  | cons p rest ih =>
      obtain ⟨k', v'⟩ := p
      by_cases hk : k' = k
      · simp [hk]
      · rw [AListGet, if_neg hk] at h
        simpa using Or.inr (ih h)

theorem AListErase_map_fst (l : List (Nat × α)) (k : Nat) :
    (AListErase l k).map Prod.fst = (l.map Prod.fst).erase k := by
  induction l with
  | nil => rfl
  | cons p rest ih =>
      obtain ⟨k', v'⟩ := p
      by_cases hk : k' = k
      · subst hk
        rw [AListErase, if_pos rfl, List.map_cons, List.erase_cons_head]
      · rw [AListErase, if_neg hk, List.map_cons, List.map_cons,
          List.erase_cons_tail, ih]
        simp [hk]

theorem AListErase_length_of_mem {l : List (Nat × α)} {k : Nat}
    (h : k ∈ l.map Prod.fst) : (AListErase l k).length + 1 = l.length := by
  induction l with
  | nil => simp at h
  | cons p rest ih =>
      obtain ⟨k', v'⟩ := p
      by_cases hk : k' = k
      · rw [AListErase, if_pos hk]
        rfl
      · rw [AListErase, if_neg hk]
        have hmem : k ∈ rest.map Prod.fst := by
          rcases List.mem_cons.mp h with h2 | h2
          · exact absurd h2.symm hk
          · exact h2
        simp only [List.length_cons]
        rw [← ih hmem]

theorem processOne_bundleInv {db : Db} {sel : OutpointSelection}
    {col : Collector} {id : Nat} {col' : Collector} {tips : List NodeOutpoint}
    {done : List Nat}
    (hconc : ∀ e ∈ db.bundles, e.2.revealed = [])
    (hnk : ∀ e ∈ db.bundles, (concealedIds e.2).Nodup)
    (hkey : ∀ e ∈ db.transitions, e.2.node_id = e.1)
    (hinv : BundleInv db done col)
    (h : Collector.processOne db sel col id = Except.ok (col', tips)) :
    BundleInv db (done ++ [id]) col' := by
  obtain ⟨hcov, hbun⟩ := hinv
  obtain ⟨t, wt, colR, a, b, b', ht, hw, hres, hrev, htips, hcol⟩ :=
    processOne_ok_spec h
  have htid : t.node_id = id := hkey _ (AListGet_mem ht)
  obtain ⟨hcid, heps, hinp, hor⟩ := resolveBundle_ok_spec hres
  have hcolR_ne : ∀ wtx, wtx ≠ wt →
      AListGet colR.anchored_bundles wtx = AListGet col.anchored_bundles wtx := by
    intro wtx hne
    rcases hor with ⟨hhit, hR⟩ | ⟨hmiss, a₀, ha, hb, hp, hR⟩
    · rw [hR]
    · rw [hR]
      simp only []
      exact AListGet_put_ne _ (Ne.symm hne)
  have hbdata : ∃ b₀, AListGet db.bundles wt = some b₀ ∧ b₀.revealed = [] ∧
      b.bId = b₀.bId ∧ (revealedIds b).Nodup ∧
      (∀ x, x ∈ revealedIds b ↔
        (x ∈ done ∧ AListGet db.transition_txid x = some wt)) ∧
      (∀ x, x ∈ concealedIds b → x ∉ revealedIds b) ∧
      (concealedIds b).Nodup ∧
      b.concealed.length + b.revealed.length = b₀.concealed.length := by
    rcases hor with ⟨hhit, hR⟩ | ⟨hmiss, a₀, ha, hb, hp, hR⟩
    · exact hbun wt a b hhit
    · have hbrev : b.revealed = [] := hconc _ (AListGet_mem hb)
      refine ⟨b, hb, hbrev, rfl, ?_, ?_, ?_, hnk _ (AListGet_mem hb), ?_⟩
      · simp [revealedIds, hbrev]
      · intro x
        constructor
        · intro hx
          rw [revealedIds, hbrev] at hx
          simp at hx
        · rintro ⟨hxdone, hxw⟩
          exfalso
          have hsome := hcov x hxdone wt hxw
          rw [hmiss] at hsome
          simp at hsome
      · intro x hx
        rw [revealedIds, hbrev]
        simp
      · rw [hbrev]
        simp
  obtain ⟨b₀, hb₀, hb₀rev, hbid, hnd, hiff, hdisj, hcnd, hlen⟩ := hbdata
  have hb'data : b'.bId = b.bId ∧ (revealedIds b').Nodup ∧
      (∀ x, x ∈ revealedIds b' ↔ (x ∈ revealedIds b ∨ x = id)) ∧
      (∀ x, x ∈ concealedIds b' → x ∉ revealedIds b') ∧
      (concealedIds b').Nodup ∧
      b'.concealed.length + b'.revealed.length =
        b.concealed.length + b.revealed.length := by
    rcases reveal_ok_cases hrev with ⟨inputs, hg, hb'⟩ | ⟨hg, hmem, hb'⟩
    · rw [htid] at hg hb'
      have hidc : id ∈ concealedIds b := AListGet_some_key_mem hg
      have hidnr : id ∉ revealedIds b := hdisj id hidc
      have hrid : revealedIds b' = revealedIds b ++ [id] := by
        rw [hb']
        simp [revealedIds, htid]
      have hcid2 : concealedIds b' = (concealedIds b).erase id := by
        rw [hb']
        simp only [concealedIds, htid]
        exact AListErase_map_fst b.concealed id
      refine ⟨by rw [hb'], ?_, ?_, ?_, ?_, ?_⟩
      · rw [hrid]
        refine List.Nodup.append hnd (List.nodup_singleton _) ?_
        intro x hx hx2
        rw [List.mem_singleton] at hx2
        subst hx2
        exact hidnr hx
      · intro x
        rw [hrid]
        simp
      · intro x hx
        rw [hcid2] at hx
        obtain ⟨hxne, hxc⟩ := (List.Nodup.mem_erase_iff hcnd).mp hx
        rw [hrid]
        intro hcontra
        rcases List.mem_append.mp hcontra with h2 | h2
        · exact hdisj x hxc h2
        · rw [List.mem_singleton] at h2
          exact hxne h2
      · rw [hcid2]
        exact hcnd.erase _
      · have hlenc : (AListErase b.concealed id).length + 1 = b.concealed.length :=
          AListErase_length_of_mem hidc
        rw [hb']
        simp only [List.length_append, List.length_cons, List.length_nil]
        omega
    · rw [htid] at hmem
      rw [hb']
      refine ⟨rfl, hnd, ?_, hdisj, hcnd, rfl⟩
      intro x
      constructor
      · intro hx
        exact Or.inl hx
      · rintro (hx | hx)
        · exact hx
        · subst hx
          exact hmem
  obtain ⟨hbid', hnd', hiff', hdisj', hcnd', hlen'⟩ := hb'data
  constructor
  · intro x hx wtx hwx
    rw [hcol]
    simp only []
    rcases List.mem_append.mp hx with hx | hx
    · by_cases hwteq : wtx = wt
      · subst hwteq
        simp [AListGet_put_self]
      · rw [AListGet_put_ne _ (Ne.symm hwteq), hcolR_ne wtx hwteq]
        exact hcov x hx wtx hwx
    · rw [List.mem_singleton] at hx
      subst hx
      rw [hw] at hwx
      injection hwx with hwx2
      subst hwx2
      simp [AListGet_put_self]
  · intro wtx a₂ b₂ hlook
    rw [hcol] at hlook
    simp only [] at hlook
    by_cases hwteq : wtx = wt
    · subst hwteq
      rw [AListGet_put_self] at hlook
      injection hlook with hpair
      injection hpair with hA hB
      subst hA
      subst hB
      refine ⟨b₀, hb₀, hb₀rev, hbid'.trans hbid, hnd', ?_, hdisj', hcnd', ?_⟩
      · intro x
        rw [hiff' x, hiff x]
        constructor
        · rintro (⟨hxd, hxw⟩ | hxid)
          · exact ⟨List.mem_append.mpr (Or.inl hxd), hxw⟩
          · subst hxid
            exact ⟨List.mem_append.mpr (Or.inr (List.mem_singleton.mpr rfl)), hw⟩
        · rintro ⟨hxd, hxw⟩
          rcases List.mem_append.mp hxd with h2 | h2
          · exact Or.inl ⟨h2, hxw⟩
          · rw [List.mem_singleton] at h2
            exact Or.inr h2
      · rw [hlen']
        exact hlen
    · rw [AListGet_put_ne _ (Ne.symm hwteq), hcolR_ne wtx hwteq] at hlook
      obtain ⟨b₀2, hb₀2, hb₀2rev, hbid2, hnd2, hiff2, hdisj2, hcnd2, hlen2⟩ :=
        hbun wtx a₂ b₂ hlook
      refine ⟨b₀2, hb₀2, hb₀2rev, hbid2, hnd2, ?_, hdisj2, hcnd2, hlen2⟩
      intro x
      rw [hiff2 x]
      constructor
      · rintro ⟨hxd, hxw⟩
        exact ⟨List.mem_append.mpr (Or.inl hxd), hxw⟩
      · rintro ⟨hxd, hxw⟩
        rcases List.mem_append.mp hxd with h2 | h2
        · exact ⟨h2, hxw⟩
        · rw [List.mem_singleton] at h2
          subst h2
          rw [hw] at hxw
          injection hxw with hxw2
          exact absurd hxw2.symm hwteq

theorem process_bundleInv {db : Db} {sel : OutpointSelection} {ids : List Nat}
    {col col' : Collector} {tips : List NodeOutpoint} {done : List Nat}
    (hconc : ∀ e ∈ db.bundles, e.2.revealed = [])
    (hnk : ∀ e ∈ db.bundles, (concealedIds e.2).Nodup)
    (hkey : ∀ e ∈ db.transitions, e.2.node_id = e.1)
    (hinv : BundleInv db done col)
    (h : Collector.process db sel col ids = Except.ok (col', tips)) :
    BundleInv db (done ++ ids) col' := by
  induction ids generalizing col tips done with
  | nil =>
      unfold Collector.process at h
      injection h with h1
      injection h1 with hA hB
      subst hA
      simpa using hinv
  | cons id rest ih =>
      unfold Collector.process at h
      cases h1 : Collector.processOne db sel col id with
      | error e => rw [h1] at h; simp at h
      | ok r =>
      obtain ⟨col₁, tips₁⟩ := r
      rw [h1] at h
      simp only [] at h
      cases h2 : Collector.process db sel col₁ rest with
      | error e => rw [h2] at h; simp at h
      | ok r2 =>
      obtain ⟨col₂, tips₂⟩ := r2
      rw [h2] at h
      simp only [] at h
      injection h with h3
      injection h3 with hA hB
      subst hA
      have hstep := processOne_bundleInv hconc hnk hkey ⟨hinv.1, hinv.2⟩ h1
      have hrest := ih hstep h2
      simpa using hrest

/-- C3: every transition walked by `Collector::process` is revealed inside its
cached bundle, matched or not: starting from a fresh collector over a stash
whose stored bundles are all concealed, each cached bundle of witness txid
`wt` holding `N` transitions ends with exactly `M` revealed entries — `M` the
number of distinct walked ids carried by `wt` — and `N − M` still-concealed
commitments. -/
theorem c3_walked_transitions_revealed_in_bundles (db : Db)
    (sel : OutpointSelection) (cid : Nat) (ids : List Nat) (col : Collector)
    (tips : List NodeOutpoint) (wt : Nat) (a : Anchor) (b : TransitionBundle)
    (hconc : ∀ e ∈ db.bundles, e.2.revealed = [])
    (hnk : ∀ e ∈ db.bundles, (concealedIds e.2).Nodup)
    (hkey : ∀ e ∈ db.transitions, e.2.node_id = e.1)
    (hids : ids.Nodup)
    (h : Collector.process db sel (Collector.new cid) ids = Except.ok (col, tips))
    (hwt : AListGet col.anchored_bundles wt = some (a, b)) :
    ∃ b₀, AListGet db.bundles wt = some b₀ ∧ b₀.revealed = [] ∧
      b.revealed.length = (ids.filter
        (fun x => decide (AListGet db.transition_txid x = some wt))).length ∧
      b.concealed.length + b.revealed.length = b₀.concealed.length := by
  have hinv0 : BundleInv db [] (Collector.new cid) := by
    constructor
    · intro x hx
      simp at hx
    · intro wtx a₂ b₂ hlook
      simp [Collector.new, AListGet] at hlook
  have hinv := process_bundleInv hconc hnk hkey hinv0 h
  rw [List.nil_append] at hinv
  obtain ⟨hcov, hbun⟩ := hinv
  obtain ⟨b₀, hb₀, hb₀rev, hbid, hnd, hiff, hdisj, hcnd, hlen⟩ := hbun wt a b hwt
  refine ⟨b₀, hb₀, hb₀rev, ?_, hlen⟩
  have hfn : (ids.filter
      (fun x => decide (AListGet db.transition_txid x = some wt))).Nodup :=
    hids.filter _
  have hperm : (revealedIds b).Perm (ids.filter
      (fun x => decide (AListGet db.transition_txid x = some wt))) := by
    rw [List.perm_ext_iff_of_nodup hnd hfn]
    intro x
    rw [hiff x, List.mem_filter]
    simp
  have hle := hperm.length_eq
  rw [revealedIds, List.length_map] at hle
  exact hle

/-- C3 witness: walking the child transition reveals it inside the cached
bundle of witness txid 30, which held one concealed transition and ends with
one revealed and zero concealed. -/
theorem c3_witness :
    ∃ b₀, AListGet dbW.bundles 30 = some b₀ ∧ b₀.revealed = [] ∧
      ({ bId := 93, concealed := [], revealed := [(tC, [2])] } :
        TransitionBundle).revealed.length =
        ([3].filter (fun x =>
          decide (AListGet dbW.transition_txid x = some 30))).length ∧
      ({ bId := 93, concealed := [], revealed := [(tC, [2])] } :
        TransitionBundle).concealed.length +
        ({ bId := 93, concealed := [], revealed := [(tC, [2])] } :
          TransitionBundle).revealed.length = b₀.concealed.length :=
  c3_walked_transitions_revealed_in_bundles dbW selW 1 [3] col3W
    [NodeOutpoint.mk 3 0] 30 { txid := 30, leaves := [(1, 93)] }
    { bId := 93, concealed := [], revealed := [(tC, [2])] }
    (by decide) (by decide) (by decide) (by decide) rfl (by decide)
